import Mathlib

/-!
# solc-wrapper.go: a shallow embedding

The Go package `solc` wraps the native Solidity compiler entry point `C.solc`.
This file embeds its two public operations, `SolidityVersion` and
`CompileSolidity`, and its helpers `slurpFiles` and `callCSolc`.

Modelling conventions.

* A Go `string` / `[]byte` is a Lean `String`; only concatenation, joining and
  ASCII digit/dot matching are performed on them.
* A Go `error` is an `Option String` (`none` is `nil`, `some msg` carries the
  message); a Go map that may be `nil` is an `Option (GoMap _)`.
* The package-level slice `solcParams` lives in an explicit Go heap of backing
  arrays (`GoState`), and `append` follows the Go rule: write in place when
  the capacity suffices, allocate a fresh array otherwise.
* Everything outside the package is an explicit parameter (`Env`): the file
  system behind `ioutil.ReadFile`, the native entry point `C.solc`, the decoder
  `json.Unmarshal`, and the runtime's slice growth policy.
* Side effects are recorded in a trace of `Event`s.
-/

namespace Solc

/-! ## Go maps -/

/-- A Go map with string keys: finitely many entries, no key twice.  The order
of `entries` stands for the (unspecified) order in which `range` visits them. -/
structure GoMap (α : Type) where
  entries : List (String × α)
  nodup : (entries.map Prod.fst).Nodup

/-- Value stored under a key, `none` when absent. -/
def lookupEntries {α : Type} (k : String) : List (String × α) → Option α
  | [] => none
  | (k', v) :: rest => if k' = k then some v else lookupEntries k rest

/-- Assignment `m[k] = v` on the entry list: replace the entry when the key is
present, add one otherwise. -/
def setEntries {α : Type} (k : String) (v : α) : List (String × α) → List (String × α)
  | [] => [(k, v)]
  | (k', v') :: rest => if k' = k then (k, v) :: rest else (k', v') :: setEntries k v rest

/-- The empty map, `make(map[string]T)`. -/
def GoMap.empty {α : Type} : GoMap α where
  entries := []
  nodup := List.nodup_nil

/-- Index expression `m[k]` with the comma-ok result folded into an `Option`. -/
def GoMap.get? {α : Type} (m : GoMap α) (k : String) : Option α :=
  lookupEntries k m.entries

/-- The keys of a map, in visiting order. -/
def GoMap.keys {α : Type} (m : GoMap α) : List String :=
  m.entries.map Prod.fst

/-- Number of entries, `len(m)`. -/
def GoMap.size {α : Type} (m : GoMap α) : Nat :=
  m.entries.length

/-- Assignment `m[k] = v`. -/
def GoMap.set {α : Type} (m : GoMap α) (k : String) (v : α) : GoMap α where
  entries := setEntries k v m.entries
  nodup := by
    have mem : ∀ (l : List (String × α)) (x : String),
        x ∈ (setEntries k v l).map Prod.fst → x = k ∨ x ∈ l.map Prod.fst := by
      intro l
      induction l with
      | nil => intro x hx; simpa [setEntries] using hx
      | cons p rest ih =>
        intro x hx
        obtain ⟨k', v'⟩ := p
        by_cases hk : k' = k
        · simp only [setEntries, hk, if_true, List.map_cons, List.mem_cons] at hx ⊢
          rcases hx with h | h
          · exact Or.inl h
          · exact Or.inr (Or.inr h)
        · simp only [setEntries, hk, if_false, List.map_cons, List.mem_cons] at hx ⊢
          rcases hx with h | h
          · exact Or.inr (Or.inl h)
          · rcases ih x h with h1 | h1
            · exact Or.inl h1
            · exact Or.inr (Or.inr h1)
    have key : ∀ l : List (String × α), (l.map Prod.fst).Nodup →
        ((setEntries k v l).map Prod.fst).Nodup := by
      intro l
      induction l with
      | nil => intro _; simp [setEntries]
      | cons p rest ih =>
        intro h
        obtain ⟨k', v'⟩ := p
        rw [List.map_cons, List.nodup_cons] at h
        by_cases hk : k' = k
        · simp only [setEntries, hk, if_true, List.map_cons, List.nodup_cons]
          exact ⟨hk ▸ h.1, h.2⟩
        · simp only [setEntries, hk, if_false, List.map_cons, List.nodup_cons]
          refine ⟨fun hin => ?_, ih h.2⟩
          rcases mem rest k' hin with h1 | h1
          · exact hk h1
          · exact h.1 h1
    exact key _ m.nodup

/-! ## Go slices over a heap of backing arrays -/

/-- A slice header: backing array (an index into the heap), offset of the first
element in it, length and capacity. -/
structure Slice where
  arr : Nat
  off : Nat
  len : Nat
  cap : Nat
  deriving DecidableEq, Repr

/-- The mutable state the package touches: the backing arrays of its string
slices and the package-level variable `solcParams`. -/
structure GoState where
  heap : List (List String)
  solcParams : Slice
  deriving DecidableEq, Repr

/-- The elements `s[0], ..., s[len(s)-1]` of a slice. -/
def GoState.read (st : GoState) (s : Slice) : List String :=
  ((st.heap.getD s.arr []).drop s.off).take s.len

/-- Overwrite the cells of an array from position `i` on with `xs`. -/
def writeAt (a : List String) (i : Nat) (xs : List String) : List String :=
  a.take i ++ xs ++ a.drop (i + xs.length)

/-- The built-in `append(s, xs...)`.  When the capacity of `s` suffices the new
elements are written into the backing array of `s`; otherwise a fresh array is
allocated whose capacity is chosen by the runtime (`grow`, at least the needed
length) and the old elements are copied into it. -/
def goAppend (grow : Nat → Nat → Nat) (st : GoState) (s : Slice) (xs : List String) :
    GoState × Slice :=
  if s.len + xs.length ≤ s.cap then
    ({ st with heap := st.heap.set s.arr (writeAt (st.heap.getD s.arr []) (s.off + s.len) xs) },
     { s with len := s.len + xs.length })
  else
    let need := s.len + xs.length
    let c := max need (grow s.cap need)
    ({ st with heap := st.heap ++ [st.read s ++ xs ++ List.replicate (c - need) ""] },
     { arr := st.heap.length, off := 0, len := need, cap := c })

/-- A slice literal `[]string{...}`: a fresh backing array holding exactly the
listed elements, length and capacity both equal to their number. -/
def sliceLiteral (st : GoState) (xs : List String) : GoState × Slice :=
  ({ st with heap := st.heap ++ [xs] },
   { arr := st.heap.length, off := 0, len := xs.length, cap := xs.length })

/-- The state after package initialisation: `solcParams` is the slice literal
of lines 42-46. -/
def initState : GoState :=
  { heap := [["--combined-json", "bin,abi,userdoc,devdoc", "--add-std", "--optimize"]],
    solcParams := { arr := 0, off := 0, len := 4, cap := 4 } }

/-- The function `strings.Join`. -/
def stringsJoin : List String → String → String
  | [], _ => ""
  | [x], _ => x
  | x :: y :: rest, sep => x ++ sep ++ stringsJoin (y :: rest) sep

/-- The texts of a list written one after the other, nothing in between. -/
def concatStrings : List String → String
  | [] => ""
  | x :: xs => x ++ concatStrings xs

/-! ## The version pattern -/

/-- One attempt of `[0-9]+\.[0-9]+\.[0-9]+` at the start of the text: every
digit group is the maximal run of ASCII digits, which is the only way the
pattern can match from a given start (a group must be followed by a dot, and
the last one is greedy). -/
def matchHere (s : List Char) : Option (List Char) :=
  match s.dropWhile Char.isDigit with
  | '.' :: r1 =>
    match r1.dropWhile Char.isDigit with
    | '.' :: r2 =>
      if s.takeWhile Char.isDigit ≠ [] ∧ r1.takeWhile Char.isDigit ≠ [] ∧
          r2.takeWhile Char.isDigit ≠ [] then
        some (s.takeWhile Char.isDigit ++ '.' :: r1.takeWhile Char.isDigit ++
          '.' :: r2.takeWhile Char.isDigit)
      else none
    | _ => none
  | _ => none

/-- Leftmost match: the first start position at which the pattern matches. -/
def findFrom : List Char → Option (List Char)
  | [] => none
  | c :: cs =>
    match matchHere (c :: cs) with
    | some m => some m
    | none => findFrom cs

/-- A text is a version triple: three non-empty groups of ASCII digits
separated by single dots. -/
def IsTriple (t : List Char) : Prop :=
  ∃ d1 d2 d3 : List Char, t = d1 ++ '.' :: d2 ++ '.' :: d3 ∧
    d1 ≠ [] ∧ d2 ≠ [] ∧ d3 ≠ [] ∧
    (∀ c ∈ d1, c.isDigit = true) ∧ (∀ c ∈ d2, c.isDigit = true) ∧ (∀ c ∈ d3, c.isDigit = true)

/-- A text contains a version triple as a substring. -/
def HasTriple (s : String) : Prop :=
  ∃ before t after : List Char, s.data = before ++ t ++ after ∧ IsTriple t

/-- The call `versionRegexp.FindString(s)`: the text of the leftmost match of
`[0-9]+\.[0-9]+\.[0-9]+` in `s`, the empty string when there is none. -/
def FindString (s : String) : String :=
  match findFrom s.data with
  | some m => String.mk m
  | none => ""

/-! ## Data types of the package -/

/-- The record `ContractInfo`; `V` is the type of decoded JSON values held by
the three `interface{}` fields. -/
structure ContractInfo (V : Type) where
  Source : String
  Language : String
  LanguageVersion : String
  CompilerVersion : String
  CompilerOptions : String
  AbiDefinition : V
  UserDoc : V
  DeveloperDoc : V

/-- The record `Contract`. -/
structure Contract (V : Type) where
  Code : String
  Info : ContractInfo V

/-- The record `Solidity`: short and full version text. -/
structure Solidity where
  Version : String
  FullVersion : String
  deriving DecidableEq, Repr

/-- The element type of `solcOutput.Contracts`. -/
structure solcContract where
  Bin : String
  Abi : String
  Devdoc : String
  Userdoc : String
  deriving DecidableEq, Repr

/-- The record `solcOutput`, the combined-JSON document. -/
structure solcOutput where
  Contracts : GoMap solcContract
  Version : String

/-- A `bytes.Buffer`, by its content. -/
structure Buffer where
  content : String
  deriving DecidableEq, Repr

/-- The zero value `var b bytes.Buffer`: an empty buffer. -/
def Buffer.zero : Buffer := { content := "" }

/-- The method `Write`: the bytes are added at the end. -/
def Buffer.Write (b : Buffer) (p : String) : Buffer := { content := b.content ++ p }

/-- The method `Bytes`. -/
def Buffer.Bytes (b : Buffer) : String := b.content

/-- The method `String`. -/
def Buffer.String (b : Buffer) : String := b.content

/-! ## The world outside the package -/

/-- An observable interaction with the outside world. -/
inductive Event where
  | readFile (path : String)
  | solc (argc : Nat) (argv : List (Option String))
  deriving DecidableEq, Repr

/-- Everything the package calls and does not define.

* `readFile` is `ioutil.ReadFile` on the current file system.
* `solc argc argv` is the native entry point `C.solc`: it returns the status
  and the text the compiler writes on the standard output of the process.
* `unmarshalOutput` is `json.Unmarshal(data, &output)` for a `solcOutput`,
  `unmarshalValue` is `json.Unmarshal(data, &v)` for an `interface{}`.
  Of `encoding/json` one documented fact is used: decoding empty data fails
  with the syntax error `unexpected end of JSON input`.
* `growCap old need` is the capacity the runtime picks when `append` has to
  allocate. -/
structure Env (V : Type) where
  readFile : String → Except String String
  solc : Nat → List (Option String) → Int × String
  unmarshalOutput : String → Except String solcOutput
  unmarshalValue : String → Except String V
  growCap : Nat → Nat → Nat
  unmarshal_empty : unmarshalOutput "" = Except.error "unexpected end of JSON input"

/-! ## The functions of the package -/

/-- The C helper `makeCharArray`: `calloc` yields `size` null pointers. -/
def makeCharArray (size : Nat) : List (Option String) :=
  List.replicate size none

/-- The C helper `setArrayString`: `a[n] = s`. -/
def setArrayString (a : List (Option String)) (s : String) (n : Nat) : List (Option String) :=
  a.set n (some s)

/-- The loop of `callCSolc` (lines 165-167), from index `i` on. -/
def fillCharArray : List String → Nat → List (Option String) → List (Option String)
  | [], _, cargs => cargs
  | s :: rest, i, cargs => fillCharArray rest (i + 1) (setArrayString cargs s i)

/-- The function `callCSolc` (lines 162-170): marshal the arguments into a C
array, call `C.solc`, report whether the status is 0.  What the compiler
writes goes to the standard output of the process and is not returned. -/
def callCSolc {V : Type} (E : Env V) (args : List String) : Bool × Event :=
  let cargs := fillCharArray args 0 (makeCharArray args.length)
  (decide ((E.solc args.length cargs).1 = 0), Event.solc args.length cargs)

/-- The loop of `slurpFiles` (lines 152-158). -/
def slurpLoop {V : Type} (E : Env V) :
    List String → Buffer → List Event → String × Option String × List Event
  | [], concat, tr => (concat.String, none, tr)
  | file :: rest, concat, tr =>
    match E.readFile file with
    | Except.error err => ("", some err, tr ++ [Event.readFile file])
    | Except.ok content => slurpLoop E rest (concat.Write content) (tr ++ [Event.readFile file])

/-- The function `slurpFiles` (lines 150-160): the text, the error, and the
reads performed. -/
def slurpFiles {V : Type} (E : Env V) (files : List String) :
    String × Option String × List Event :=
  slurpLoop E files Buffer.zero []

/-- The verb `%v` of `fmt` applied to an `error`. -/
def fmtV (err : Option String) : String :=
  match err with
  | none => "<nil>"
  | some msg => msg

/-- What `CompileSolidity` hands back: the two Go results, the interactions
performed, and the package state afterwards. -/
structure CompileResult (V : Type) where
  contracts : Option (GoMap (Contract V))
  err : Option String
  trace : List Event
  state : GoState

/-- The loop of `CompileSolidity` (lines 119-146) over the entries still to
visit, with the map built so far. -/
def assembleLoop {V : Type} (E : Env V) (st : GoState) (source shortVersion : String) :
    List (String × solcContract) → GoMap (Contract V) →
    Option (GoMap (Contract V)) × Option String
  | [], contracts => (some contracts, none)
  | (name, info) :: rest, contracts =>
    match E.unmarshalValue info.Abi with
    | Except.error err => (none, some ("solc: error reading abi definition (" ++ err ++ ")"))
    | Except.ok abi =>
      match E.unmarshalValue info.Userdoc with
      | Except.error err => (none, some ("solc: error reading user doc: " ++ err))
      | Except.ok userdoc =>
        match E.unmarshalValue info.Devdoc with
        | Except.error err => (none, some ("solc: error reading dev doc: " ++ err))
        | Except.ok devdoc =>
          assembleLoop E st source shortVersion rest
            (contracts.set name
              { Code := "0x" ++ info.Bin,
                Info :=
                  { Source := source,
                    Language := "Solidity",
                    LanguageVersion := shortVersion,
                    CompilerVersion := shortVersion,
                    CompilerOptions := stringsJoin (st.read st.solcParams) " ",
                    AbiDefinition := abi,
                    UserDoc := userdoc,
                    DeveloperDoc := devdoc } })

/-- The body of `CompileSolidity` (lines 92-147) as a function of the content
of its two local buffers `stderr` and `stdout`. -/
def compileWithBuffers {V : Type} (E : Env V) (st : GoState) (stderr stdout : Buffer)
    (sourcefiles : List String) : CompileResult V :=
  if sourcefiles.length = 0 then
    { contracts := none, err := some "solc: no source ", trace := [], state := st }
  else
    match slurpFiles E sourcefiles with
    | (_, some err, reads) =>
      { contracts := none, err := some err, trace := reads, state := st }
    | (source, none, reads) =>
      let (st1, args) := goAppend E.growCap st st.solcParams ["--"]
      let (st2, all) := goAppend E.growCap st1 args sourcefiles
      let (ok, call) := callCSolc E (st2.read all)
      if !ok then
        -- the variable err of line 95 is nil on this path
        { contracts := none,
          err := some ("solc: " ++ fmtV none ++ "\n" ++ stderr.Bytes),
          trace := reads ++ [call], state := st2 }
      else
        match E.unmarshalOutput stdout.Bytes with
        | Except.error err =>
          { contracts := none, err := some err, trace := reads ++ [call], state := st2 }
        | Except.ok output =>
          let shortVersion := FindString output.Version
          let (contracts, err) :=
            assembleLoop E st2 source shortVersion output.Contracts.entries GoMap.empty
          { contracts := contracts, err := err, trace := reads ++ [call], state := st2 }

/-- The function `CompileSolidity` (lines 91-148).  Its buffers `stderr` and
`stdout` are declared on line 100 and nothing writes to them (the two
assignments that would connect them are commented out on lines 102-103), so
they hold their zero value when they are read. -/
def CompileSolidity {V : Type} (E : Env V) (st : GoState) (_solc : String)
    (sourcefiles : List String) : CompileResult V :=
  compileWithBuffers E st Buffer.zero Buffer.zero sourcefiles

/-- What `SolidityVersion` hands back. -/
structure VersionResult where
  solidity : Option Solidity
  err : Option String
  trace : List Event
  state : GoState
  deriving DecidableEq, Repr

/-- The body of `SolidityVersion` (lines 80-87) as a function of the content of
its local buffer `stdout`. -/
def versionWithBuffer {V : Type} (E : Env V) (st : GoState) (stdout : Buffer) : VersionResult :=
  let (st1, args) := sliceLiteral st ["--version"]
  let (_, call) := callCSolc E (st1.read args)
  { solidity := some { FullVersion := stdout.String, Version := FindString stdout.String },
    err := none, trace := [call], state := st1 }

/-- The function `SolidityVersion` (lines 77-88).  Its buffer `stdout` is
declared on line 78 and nothing writes to it. -/
def SolidityVersion {V : Type} (E : Env V) (st : GoState) : VersionResult :=
  versionWithBuffer E st Buffer.zero

/-- The state and the slice produced by the two appends of lines 101 and 105. -/
def buildArgs (grow : Nat → Nat → Nat) (st : GoState) (sourcefiles : List String) :
    GoState × Slice :=
  goAppend grow (goAppend grow st st.solcParams ["--"]).1
    (goAppend grow st st.solcParams ["--"]).2 sourcefiles

/-- The four elements of the literal of lines 42-46. -/
def solcFlags : List String :=
  ["--combined-json", "bin,abi,userdoc,devdoc", "--add-std", "--optimize"]

/-- The variable solcParams still denotes the literal it was initialised with:
same header, and its backing array, the first of the heap, holds the four
flags. -/
def ParamsIntact (st : GoState) : Prop :=
  st.solcParams = { arr := 0, off := 0, len := 4, cap := 4 } ∧ st.heap.head? = some solcFlags

/-- An error of the loop names a field that failed to decode. -/
def NamesInvalidField {V : Type} (E : Env V) (entries : List (String × solcContract))
    (e : String) : Prop :=
  ∃ name info detail, (name, info) ∈ entries ∧
    ((E.unmarshalValue info.Abi = Except.error detail ∧
        e = "solc: error reading abi definition (" ++ detail ++ ")") ∨
      (E.unmarshalValue info.Userdoc = Except.error detail ∧
        e = "solc: error reading user doc: " ++ detail) ∨
      (E.unmarshalValue info.Devdoc = Except.error detail ∧
        e = "solc: error reading dev doc: " ++ detail))

/-- Some field of some entry does not decode. -/
def HasInvalidField {V : Type} (E : Env V) (entries : List (String × solcContract)) : Prop :=
  ∃ name info detail, (name, info) ∈ entries ∧
    (E.unmarshalValue info.Abi = Except.error detail ∨
      E.unmarshalValue info.Userdoc = Except.error detail ∨
      E.unmarshalValue info.Devdoc = Except.error detail)

/-- One call into the package. -/
inductive Call (V : Type) where
  | version (E : Env V)
  | compile (E : Env V) (solc : String) (sourcefiles : List String)

/-- The package state after a call. -/
def Call.run {V : Type} (st : GoState) : Call V → GoState
  | Call.version E => (SolidityVersion E st).state
  | Call.compile E solc sourcefiles => (CompileSolidity E st solc sourcefiles).state

/-- The package state after a sequence of calls, starting from initialisation. -/
def stateAfter {V : Type} (history : List (Call V)) : GoState :=
  history.foldl Call.run initState

/-! ## Environments used as concrete inputs -/

/-- A combined-JSON document with the contracts `A` and `B`. -/
def demoDocument : String :=
  "\x7b\"contracts\":\x7b\"A\":\x7b\"abi\":\"[]\",\"bin\":\"6060\",\"devdoc\":\"\x7b\x7d\",\"userdoc\":\"\x7b\x7d\"\x7d,\"B\":\x7b\"abi\":\"[]\",\"bin\":\"6061\",\"devdoc\":\"\x7b\x7d\",\"userdoc\":\"\x7b\x7d\"\x7d\x7d,\"version\":\"0.4.24+commit.e67f0147\"\x7d"

/-- A combined-JSON document in which contract `A` has an ABI string that is
not JSON. -/
def badAbiDocument : String :=
  "\x7b\"contracts\":\x7b\"A\":\x7b\"abi\":\"not json\",\"bin\":\"6060\",\"devdoc\":\"\x7b\x7d\",\"userdoc\":\"\x7b\x7d\"\x7d\x7d,\"version\":\"0.4.24\"\x7d"

/-- A file system with the two sources `a.sol` and `b.sol`, a compiler that
reports status 0 and prints `demoDocument`, and a decoder that knows the two
documents above, rejects empty data as `encoding/json` does and rejects every
other text; of the per-contract strings it rejects `not json`. -/
def demoEnv : Env String where
  readFile := fun path =>
    if path = "a.sol" then Except.ok "contract A {}"
    else if path = "b.sol" then Except.ok "contract B {}"
    else Except.error ("open " ++ path ++ ": no such file or directory")
  solc := fun _ _ => (0, demoDocument)
  unmarshalOutput := fun data =>
    if data = "" then Except.error "unexpected end of JSON input"
    else if data = demoDocument then
      Except.ok
        { Contracts :=
            (GoMap.empty.set "A"
              { Bin := "6060", Abi := "[]", Devdoc := "\x7b\x7d", Userdoc := "\x7b\x7d" }).set "B"
              { Bin := "6061", Abi := "[]", Devdoc := "\x7b\x7d", Userdoc := "\x7b\x7d" },
          Version := "0.4.24+commit.e67f0147" }
    else if data = badAbiDocument then
      Except.ok
        { Contracts :=
            GoMap.empty.set "A"
              { Bin := "6060", Abi := "not json", Devdoc := "\x7b\x7d", Userdoc := "\x7b\x7d" },
          Version := "0.4.24" }
    else Except.error "invalid character"
  unmarshalValue := fun data =>
    if data = "not json" then Except.error "invalid character" else Except.ok data
  growCap := fun old _ => 2 * old
  unmarshal_empty := rfl

/-- The demo environment with a compiler that answers the version banner
`Version: 0.4.24+commit.e67f0147`. -/
def versionEnv : Env String :=
  { demoEnv with solc := fun _ _ => (0, "Version: 0.4.24+commit.e67f0147") }

/-- The demo environment with a compiler that prints `badAbiDocument`. -/
def badAbiEnv : Env String :=
  { demoEnv with solc := fun _ _ => (0, badAbiDocument) }

/-! ## Basic facts -/

theorem compileWithBuffers_nil {V : Type} (E : Env V) (st : GoState) (stderr stdout : Buffer) :
    compileWithBuffers E st stderr stdout [] =
      { contracts := none, err := some "solc: no source ", trace := [], state := st } := by
  simp [compileWithBuffers]

theorem assembleLoop_both {V : Type} (E : Env V) (st : GoState) (source shortVersion : String)
    (entries : List (String × solcContract)) :
    ∀ acc : GoMap (Contract V),
      ((assembleLoop E st source shortVersion entries acc).2 ≠ none →
        (assembleLoop E st source shortVersion entries acc).1 = none) ∧
      ((assembleLoop E st source shortVersion entries acc).2 = none →
        (assembleLoop E st source shortVersion entries acc).1 ≠ none) := by
  induction entries with
  | nil => intro acc; simp [assembleLoop]
  | cons p rest ih =>
    intro acc
    obtain ⟨name, info⟩ := p
    simp only [assembleLoop]
    cases E.unmarshalValue info.Abi with
    | error e => simp
    | ok abi =>
      cases E.unmarshalValue info.Userdoc with
      | error e => simp
      | ok userdoc =>
        cases E.unmarshalValue info.Devdoc with
        | error e => simp
        | ok devdoc => exact ih _

theorem compileWithBuffers_all_or_nothing {V : Type} (E : Env V) (st : GoState)
    (stderr stdout : Buffer) (sourcefiles : List String) :
    (compileWithBuffers E st stderr stdout sourcefiles).err ≠ none →
      (compileWithBuffers E st stderr stdout sourcefiles).contracts = none := by
  unfold compileWithBuffers
  split
  · simp
  · split
    · simp
    · simp only []
      split
      · simp
      · split
        · simp
        · exact (assembleLoop_both E _ _ _ _ _).1

theorem slurpLoop_congr {V : Type} (E E' : Env V) (h : E.readFile = E'.readFile)
    (files : List String) :
    ∀ (b : Buffer) (tr : List Event), slurpLoop E files b tr = slurpLoop E' files b tr := by
  induction files with
  | nil => intro b tr; rfl
  | cons f rest ih =>
    intro b tr
    simp only [slurpLoop, h]
    cases E'.readFile f with
    | error e => rfl
    | ok c => exact ih _ _

theorem compileWithBuffers_zero_cases {V : Type} (E : Env V) (st : GoState)
    (sourcefiles : List String) :
    (compileWithBuffers E st Buffer.zero Buffer.zero sourcefiles).contracts = none ∧
    ((compileWithBuffers E st Buffer.zero Buffer.zero sourcefiles).err = some "solc: no source " ∨
      (∃ e, (slurpFiles E sourcefiles).2.1 = some e ∧
        (compileWithBuffers E st Buffer.zero Buffer.zero sourcefiles).err = some e) ∨
      (compileWithBuffers E st Buffer.zero Buffer.zero sourcefiles).err = some "solc: <nil>\n" ∨
      (compileWithBuffers E st Buffer.zero Buffer.zero sourcefiles).err =
        some "unexpected end of JSON input") := by
  unfold compileWithBuffers
  split
  · simp
  · split
    · rename_i src e reads heq
      simp [heq]
    · simp only []
      split
      · refine ⟨rfl, Or.inr (Or.inr (Or.inl ?_))⟩
        simp [fmtV, Buffer.Bytes, Buffer.zero]
      · have hz : E.unmarshalOutput Buffer.zero.Bytes =
            Except.error "unexpected end of JSON input" := E.unmarshal_empty
        rw [hz]
        simp

theorem compileWithBuffers_run {V : Type} (E : Env V) (st : GoState) (stderr stdout : Buffer)
    (sourcefiles : List String) (source : String) (reads : List Event)
    (hne : sourcefiles ≠ []) (hs : slurpFiles E sourcefiles = (source, none, reads)) :
    (compileWithBuffers E st stderr stdout sourcefiles).trace =
        reads ++ [(callCSolc E ((buildArgs E.growCap st sourcefiles).1.read
          (buildArgs E.growCap st sourcefiles).2)).2] ∧
    (compileWithBuffers E st stderr stdout sourcefiles).state =
        (buildArgs E.growCap st sourcefiles).1 ∧
    ((callCSolc E ((buildArgs E.growCap st sourcefiles).1.read
          (buildArgs E.growCap st sourcefiles).2)).1 = false →
      (compileWithBuffers E st stderr stdout sourcefiles).contracts = none ∧
      (compileWithBuffers E st stderr stdout sourcefiles).err =
        some ("solc: <nil>\n" ++ stderr.content)) ∧
    ((callCSolc E ((buildArgs E.growCap st sourcefiles).1.read
          (buildArgs E.growCap st sourcefiles).2)).1 = true →
      (∀ e, E.unmarshalOutput stdout.content = Except.error e →
        (compileWithBuffers E st stderr stdout sourcefiles).contracts = none ∧
        (compileWithBuffers E st stderr stdout sourcefiles).err = some e) ∧
      (∀ out, E.unmarshalOutput stdout.content = Except.ok out →
        (compileWithBuffers E st stderr stdout sourcefiles).contracts =
          (assembleLoop E (buildArgs E.growCap st sourcefiles).1 source (FindString out.Version)
            out.Contracts.entries GoMap.empty).1 ∧
        (compileWithBuffers E st stderr stdout sourcefiles).err =
          (assembleLoop E (buildArgs E.growCap st sourcefiles).1 source (FindString out.Version)
            out.Contracts.entries GoMap.empty).2)) := by
  have hl : sourcefiles.length ≠ 0 := by simpa using hne
  unfold compileWithBuffers buildArgs
  simp only [hl, if_false, hs, Buffer.Bytes]
  split
  · rename_i hok
    simp only [Bool.not_eq_true', ] at hok
    simp [hok, fmtV]
  · rename_i hok
    simp only [Bool.not_eq_true', Bool.not_eq_false] at hok
    simp only [hok]
    cases hu : E.unmarshalOutput stdout.content with
    | error e => simp
    | ok out => simp

theorem slurpLoop_trace {V : Type} (E : Env V) (files : List String) :
    ∀ (b : Buffer) (tr : List Event) (ev : Event), ev ∈ (slurpLoop E files b tr).2.2 →
      ev ∈ tr ∨ ∃ path, ev = Event.readFile path := by
  induction files with
  | nil => intro b tr ev h; exact Or.inl h
  | cons f rest ih =>
    intro b tr ev h
    simp only [slurpLoop] at h
    cases hr : E.readFile f with
    | error e =>
      rw [hr] at h
      simp only [List.mem_append, List.mem_singleton] at h
      rcases h with h | h
      · exact Or.inl h
      · exact Or.inr ⟨f, h⟩
    | ok c =>
      rw [hr] at h
      rcases ih _ _ ev h with h1 | h1
      · simp only [List.mem_append, List.mem_singleton] at h1
        rcases h1 with h1 | h1
        · exact Or.inl h1
        · exact Or.inr ⟨f, h1⟩
      · exact Or.inr h1

theorem slurpFiles_trace {V : Type} (E : Env V) (files : List String) (ev : Event)
    (h : ev ∈ (slurpFiles E files).2.2) : ∃ path, ev = Event.readFile path := by
  rcases slurpLoop_trace E files Buffer.zero [] ev h with h1 | h1
  · simp at h1
  · exact h1

theorem slurpLoop_ok {V : Type} (E : Env V) (content : String → String) (files : List String) :
    ∀ (b : Buffer) (tr : List Event), (∀ f ∈ files, E.readFile f = Except.ok (content f)) →
      slurpLoop E files b tr =
        (b.content ++ concatStrings (files.map content), none,
          tr ++ files.map Event.readFile) := by
  induction files with
  | nil => intro b tr _; simp [slurpLoop, concatStrings, Buffer.String]
  | cons f rest ih =>
    intro b tr h
    have hf : E.readFile f = Except.ok (content f) := h f (List.mem_cons_self _ _)
    have hrest : ∀ g ∈ rest, E.readFile g = Except.ok (content g) :=
      fun g hg => h g (List.mem_cons_of_mem _ hg)
    simp only [slurpLoop, hf]
    rw [ih _ _ hrest]
    simp [Buffer.Write, concatStrings, String.append_assoc]

theorem lookupEntries_setEntries {α : Type} (k : String) (v : α) (x : String) :
    ∀ l : List (String × α),
      lookupEntries x (setEntries k v l) = if x = k then some v else lookupEntries x l := by
  intro l
  induction l with
  | nil =>
    by_cases hx : x = k
    · simp [setEntries, lookupEntries, hx]
    · have hx' : ¬ k = x := fun h => hx h.symm
      simp [setEntries, lookupEntries, hx, hx']
  | cons p rest ih =>
    obtain ⟨k', v'⟩ := p
    by_cases hk : k' = k
    · subst hk
      by_cases hx : x = k'
      · simp [setEntries, lookupEntries, hx]
      · have hx' : ¬ k' = x := fun h => hx h.symm
        simp [setEntries, lookupEntries, hx, hx']
    · by_cases hx : x = k
      · subst hx
        simp [setEntries, lookupEntries, hk, ih]
      · by_cases hkx : k' = x
        · simp [setEntries, lookupEntries, hk, hkx, hx]
        · simp [setEntries, lookupEntries, hk, hkx, hx, ih]

theorem GoMap.get?_set {α : Type} (m : GoMap α) (k : String) (v : α) (x : String) :
    (m.set k v).get? x = if x = k then some v else m.get? x :=
  lookupEntries_setEntries k v x m.entries

theorem GoMap.get?_empty {α : Type} (x : String) : (GoMap.empty : GoMap α).get? x = none := rfl

theorem lookupEntries_mem {α : Type} (k : String) (v : α) :
    ∀ l : List (String × α), lookupEntries k l = some v → (k, v) ∈ l := by
  intro l
  induction l with
  | nil => intro h; simp [lookupEntries] at h
  | cons p rest ih =>
    obtain ⟨k', v'⟩ := p
    intro h
    by_cases hk : k' = k
    · simp only [lookupEntries, hk, if_true, Option.some.injEq] at h
      simp [hk, h]
    · simp only [lookupEntries, hk, if_false] at h
      exact List.mem_cons_of_mem _ (ih h)

theorem lookupEntries_of_mem {α : Type} (k : String) (v : α) :
    ∀ l : List (String × α), (l.map Prod.fst).Nodup → (k, v) ∈ l →
      lookupEntries k l = some v := by
  intro l
  induction l with
  | nil => intro _ h; simp at h
  | cons p rest ih =>
    obtain ⟨k', v'⟩ := p
    intro hnd h
    rw [List.map_cons, List.nodup_cons] at hnd
    rcases List.mem_cons.mp h with h1 | h1
    · cases h1
      simp [lookupEntries]
    · have hne : ¬ k' = k := by
        intro hk
        apply hnd.1
        rw [hk]
        exact List.mem_map.mpr ⟨(k, v), h1, rfl⟩
      simp only [lookupEntries, hne, if_false]
      exact ih hnd.2 h1

theorem GoMap.get?_of_mem {α : Type} (m : GoMap α) (k : String) (v : α)
    (h : (k, v) ∈ m.entries) : m.get? k = some v :=
  lookupEntries_of_mem k v m.entries m.nodup h

/-- An invariant of the loop of lines 119-146: a property that holds of every
entry already in the map and of every record the loop body can build holds of
every entry of the map the loop returns. -/
theorem assembleLoop_inv {V : Type} (P : String → Contract V → Prop) (E : Env V) (st : GoState)
    (source shortVersion : String) (entries : List (String × solcContract)) :
    ∀ acc m : GoMap (Contract V),
      (∀ name info abi userdoc devdoc, (name, info) ∈ entries →
        P name
          { Code := "0x" ++ info.Bin,
            Info :=
              { Source := source,
                Language := "Solidity",
                LanguageVersion := shortVersion,
                CompilerVersion := shortVersion,
                CompilerOptions := stringsJoin (st.read st.solcParams) " ",
                AbiDefinition := abi,
                UserDoc := userdoc,
                DeveloperDoc := devdoc } }) →
      (∀ n c, acc.get? n = some c → P n c) →
      (assembleLoop E st source shortVersion entries acc).1 = some m →
      ∀ n c, m.get? n = some c → P n c := by
  induction entries with
  | nil =>
    intro acc m _ hacc hm n c hget
    simp only [assembleLoop, Option.some.injEq] at hm
    subst hm
    exact hacc n c hget
  | cons p rest ih =>
    intro acc m hbody hacc hm
    obtain ⟨name, info⟩ := p
    simp only [assembleLoop] at hm
    cases ha : E.unmarshalValue info.Abi with
    | error e => simp [ha] at hm
    | ok abi =>
      cases hu : E.unmarshalValue info.Userdoc with
      | error e => simp [ha, hu] at hm
      | ok userdoc =>
        cases hd : E.unmarshalValue info.Devdoc with
        | error e => simp [ha, hu, hd] at hm
        | ok devdoc =>
          simp only [ha, hu, hd] at hm
          refine ih _ m (fun nm inf a u d hmem => hbody nm inf a u d (List.mem_cons_of_mem _ hmem))
            ?_ hm
          intro n c hget
          rw [GoMap.get?_set] at hget
          by_cases hn : n = name
          · simp only [hn, if_true, Option.some.injEq] at hget
            rw [hn, ← hget]
            exact hbody name info abi userdoc devdoc (List.mem_cons_self _ _)
          · simp only [hn, if_false] at hget
            exact hacc n c hget

/-- A returned mapping comes from the loop: the files were read, the compiler
reported status 0, the buffer decoded, and the loop ran to its end. -/
theorem compileWithBuffers_success {V : Type} (E : Env V) (st : GoState) (stderr stdout : Buffer)
    (sourcefiles : List String) (m : GoMap (Contract V))
    (h : (compileWithBuffers E st stderr stdout sourcefiles).contracts = some m) :
    sourcefiles ≠ [] ∧
    ∃ source reads out,
      slurpFiles E sourcefiles = (source, none, reads) ∧
      (callCSolc E ((buildArgs E.growCap st sourcefiles).1.read
        (buildArgs E.growCap st sourcefiles).2)).1 = true ∧
      E.unmarshalOutput stdout.content = Except.ok out ∧
      (assembleLoop E (buildArgs E.growCap st sourcefiles).1 source (FindString out.Version)
        out.Contracts.entries GoMap.empty).1 = some m := by
  have hne : sourcefiles ≠ [] := by
    intro h0
    subst h0
    simp [compileWithBuffers_nil] at h
  refine ⟨hne, ?_⟩
  have hl : sourcefiles.length ≠ 0 := by simpa using hne
  rcases hs : slurpFiles E sourcefiles with ⟨source, err, reads⟩
  cases err with
  | some e => simp [compileWithBuffers, hl, hs] at h
  | none =>
    obtain ⟨-, -, hfail, hok⟩ := compileWithBuffers_run E st stderr stdout sourcefiles source reads
      hne hs
    cases hc : (callCSolc E ((buildArgs E.growCap st sourcefiles).1.read
        (buildArgs E.growCap st sourcefiles).2)).1 with
    | false =>
      rw [(hfail hc).1] at h
      cases h
    | true =>
      cases hu : E.unmarshalOutput stdout.content with
      | error e =>
        rw [((hok hc).1 e hu).1] at h
        cases h
      | ok out =>
        rw [((hok hc).2 out hu).1] at h
        exact ⟨source, reads, out, rfl, rfl, rfl, h⟩

theorem heap_getD_append_self (h : List (List String)) (a : List String) :
    (h ++ [a]).getD h.length [] = a := by
  simp [List.getD_eq_getElem?_getD]

theorem heap_getD_set_self (h : List (List String)) (a : List String) (i : Nat)
    (hi : i < h.length) : (h.set i a).getD i [] = a := by
  simp [List.getD_eq_getElem?_getD, hi]

theorem take_of_append_length (p rest : List String) (n : Nat) (hn : n = p.length) :
    (p ++ rest).take n = p := by
  subst hn
  simp

theorem buildArgs_spec (grow : Nat → Nat → Nat) (st : GoState) (sourcefiles : List String)
    (h : ParamsIntact st) :
    ParamsIntact (buildArgs grow st sourcefiles).1 ∧
    (buildArgs grow st sourcefiles).1.read (buildArgs grow st sourcefiles).2 =
      solcFlags ++ ["--"] ++ sourcefiles := by
  obtain ⟨hp, hh⟩ := h
  obtain ⟨heap, params⟩ := st
  simp only at hp hh
  subst hp
  cases heap with
  | nil => simp at hh
  | cons a tl =>
    simp only [List.head?_cons, Option.some.injEq] at hh
    subst hh
    have h1 : goAppend grow { heap := solcFlags :: tl, solcParams := { arr := 0, off := 0, len := 4, cap := 4 } }
        { arr := 0, off := 0, len := 4, cap := 4 } ["--"] =
        ({ heap := (solcFlags :: tl) ++ [solcFlags ++ ["--"] ++ List.replicate (max 5 (grow 4 5) - 5) ""],
           solcParams := { arr := 0, off := 0, len := 4, cap := 4 } },
         { arr := tl.length + 1, off := 0, len := 5, cap := max 5 (grow 4 5) }) := by
      simp [goAppend, GoState.read, solcFlags]
    have hlen : ((solcFlags :: tl) ++
        [solcFlags ++ ["--"] ++ List.replicate (max 5 (grow 4 5) - 5) ""]).length =
        tl.length + 1 + 1 := by simp
    have hget : ((solcFlags :: tl) ++
        [solcFlags ++ ["--"] ++ List.replicate (max 5 (grow 4 5) - 5) ""]).getD (tl.length + 1) [] =
        solcFlags ++ ["--"] ++ List.replicate (max 5 (grow 4 5) - 5) "" := by
      have := heap_getD_append_self (solcFlags :: tl)
        (solcFlags ++ ["--"] ++ List.replicate (max 5 (grow 4 5) - 5) "")
      exact this
    have htake5 : (solcFlags ++ ["--"] ++ List.replicate (max 5 (grow 4 5) - 5) "").take 5 =
        solcFlags ++ ["--"] :=
      take_of_append_length _ _ 5 rfl
    unfold buildArgs
    simp only [h1]
    unfold goAppend
    split
    · refine ⟨⟨rfl, by simp⟩, ?_⟩
      simp only [GoState.read, List.drop_zero]
      rw [heap_getD_set_self _ _ _ (by rw [hlen]; omega), hget]
      simp only [writeAt, Nat.zero_add, htake5]
      rw [List.append_assoc (solcFlags ++ ["--"]) sourcefiles]
      rw [← List.append_assoc]
      exact take_of_append_length _ _ _ (by simp [solcFlags]; omega)
    · refine ⟨⟨rfl, by simp⟩, ?_⟩
      simp only [GoState.read, List.drop_zero, hget, htake5]
      rw [heap_getD_append_self]
      exact take_of_append_length _ _ _ (by simp [solcFlags]; omega)

theorem fillCharArray_spec (rest : List String) :
    ∀ done : List String,
      fillCharArray rest done.length (done.map some ++ List.replicate rest.length none) =
        (done ++ rest).map some := by
  induction rest with
  | nil => intro done; simp [fillCharArray]
  | cons s rest ih =>
    intro done
    have hset : setArrayString (done.map some ++ List.replicate (rest.length + 1) none) s
        done.length = (done ++ [s]).map some ++ List.replicate rest.length none := by
      have hl : (done.map some).length = done.length := by simp
      unfold setArrayString
      rw [← hl, List.set_append_right _ _ (Nat.le_refl _)]
      simp [List.replicate_succ]
    simp only [fillCharArray, List.length_cons, hset]
    have := ih (done ++ [s])
    simpa using this

theorem callCSolc_event {V : Type} (E : Env V) (args : List String) :
    callCSolc E args =
      (decide ((E.solc args.length (args.map some)).1 = 0),
        Event.solc args.length (args.map some)) := by
  have h := fillCharArray_spec args []
  simp only [List.length_nil, List.map_nil, List.nil_append] at h
  simp only [callCSolc, makeCharArray, h]

theorem paramsIntact_init : ParamsIntact initState := ⟨rfl, rfl⟩

theorem paramsIntact_read (st : GoState) (h : ParamsIntact st) :
    st.read st.solcParams = solcFlags := by
  obtain ⟨hp, hh⟩ := h
  obtain ⟨heap, params⟩ := st
  simp only at hp hh
  subst hp
  cases heap with
  | nil => simp at hh
  | cons a tl =>
    simp only [List.head?_cons, Option.some.injEq] at hh
    subst hh
    rfl

theorem compile_state {V : Type} (E : Env V) (st : GoState) (stderr stdout : Buffer)
    (sourcefiles : List String) :
    (compileWithBuffers E st stderr stdout sourcefiles).state = st ∨
    (compileWithBuffers E st stderr stdout sourcefiles).state =
      (buildArgs E.growCap st sourcefiles).1 := by
  by_cases hne : sourcefiles = []
  · subst hne
    exact Or.inl (by simp [compileWithBuffers_nil])
  · have hl : sourcefiles.length ≠ 0 := by simpa using hne
    rcases hs : slurpFiles E sourcefiles with ⟨source, err, reads⟩
    cases err with
    | some e => exact Or.inl (by simp [compileWithBuffers, hl, hs])
    | none =>
      exact Or.inr (compileWithBuffers_run E st stderr stdout sourcefiles source reads hne hs).2.1

theorem paramsIntact_run {V : Type} (st : GoState) (c : Call V) (h : ParamsIntact st) :
    ParamsIntact (c.run st) := by
  cases c with
  | version E =>
    obtain ⟨hp, hh⟩ := h
    refine ⟨hp, ?_⟩
    simp only [Call.run, SolidityVersion, versionWithBuffer, sliceLiteral]
    cases hheap : st.heap with
    | nil => simp [hheap] at hh
    | cons a tl => simpa [hheap] using hh
  | compile E solc sourcefiles =>
    simp only [Call.run, CompileSolidity]
    rcases compile_state E st Buffer.zero Buffer.zero sourcefiles with h1 | h1
    · rw [h1]; exact h
    · rw [h1]; exact (buildArgs_spec E.growCap st sourcefiles h).1

theorem paramsIntact_foldl {V : Type} (history : List (Call V)) :
    ∀ st : GoState, ParamsIntact st → ParamsIntact (history.foldl Call.run st) := by
  induction history with
  | nil => intro st h; exact h
  | cons c rest ih => intro st h; exact ih _ (paramsIntact_run st c h)

theorem paramsIntact_stateAfter {V : Type} (history : List (Call V)) :
    ParamsIntact (stateAfter history) :=
  paramsIntact_foldl history initState paramsIntact_init

theorem matchHere_sound (s m : List Char) (h : matchHere s = some m) :
    IsTriple m ∧ ∃ after, s = m ++ after := by
  unfold matchHere at h
  split at h
  · rename_i r1 h1
    split at h
    · rename_i r2 h2
      split at h
      · rename_i hne
        simp only [Option.some.injEq] at h
        subst h
        refine ⟨⟨_, _, _, rfl, hne.1, hne.2.1, hne.2.2, ?_, ?_, ?_⟩, r2.dropWhile Char.isDigit, ?_⟩
        · intro c hc; exact List.mem_takeWhile_imp hc
        · intro c hc; exact List.mem_takeWhile_imp hc
        · intro c hc; exact List.mem_takeWhile_imp hc
        · have e1 := List.takeWhile_append_dropWhile Char.isDigit s
          have e2 := List.takeWhile_append_dropWhile Char.isDigit r1
          have e3 := List.takeWhile_append_dropWhile Char.isDigit r2
          rw [h1] at e1
          rw [h2] at e2
          conv_lhs => rw [← e1, ← e2, ← e3]
          simp
      · cases h
    · cases h
  · cases h

theorem findFrom_sound (s : List Char) :
    ∀ m, findFrom s = some m → ∃ before after, s = before ++ m ++ after ∧ IsTriple m := by
  induction s with
  | nil => intro m h; simp [findFrom] at h
  | cons c cs ih =>
    intro m h
    simp only [findFrom] at h
    cases hm : matchHere (c :: cs) with
    | some m' =>
      rw [hm] at h
      simp only [Option.some.injEq] at h
      subst h
      obtain ⟨ht, after, ha⟩ := matchHere_sound _ _ hm
      exact ⟨[], after, by simpa using ha, ht⟩
    | none =>
      rw [hm] at h
      obtain ⟨before, after, hs, ht⟩ := ih m h
      exact ⟨c :: before, after, by simp [hs], ht⟩

theorem FindString_empty_of_no_triple (s : String) (h : ¬ HasTriple s) : FindString s = "" := by
  unfold FindString
  cases hf : findFrom s.data with
  | none => rfl
  | some m =>
    obtain ⟨before, after, hs, ht⟩ := findFrom_sound _ _ hf
    exact absurd ⟨before, m, after, hs, ht⟩ h

theorem matchHere_complete (d1 d2 d3 after : List Char)
    (n1 : d1 ≠ []) (n2 : d2 ≠ []) (n3 : d3 ≠ [])
    (h1 : ∀ c ∈ d1, c.isDigit = true) (h2 : ∀ c ∈ d2, c.isDigit = true)
    (h3 : ∀ c ∈ d3, c.isDigit = true) :
    matchHere (d1 ++ '.' :: d2 ++ '.' :: d3 ++ after) =
      some (d1 ++ '.' :: d2 ++ '.' :: (d3 ++ after.takeWhile Char.isDigit)) := by
  have hdot : ¬ (Char.isDigit '.' = true) := by decide
  have e1 : d1 ++ '.' :: d2 ++ '.' :: d3 ++ after = d1 ++ '.' :: (d2 ++ '.' :: (d3 ++ after)) := by
    simp
  rw [e1]
  unfold matchHere
  rw [List.dropWhile_append_of_pos h1, List.dropWhile_cons_of_neg hdot]
  simp only []
  rw [List.dropWhile_append_of_pos h2, List.dropWhile_cons_of_neg hdot]
  simp only []
  rw [List.takeWhile_append_of_pos h1, List.takeWhile_cons_of_neg hdot,
    List.takeWhile_append_of_pos h2, List.takeWhile_cons_of_neg hdot,
    List.takeWhile_append_of_pos h3]
  have c1 : d1 ++ [] ≠ [] := by simpa using n1
  have c2 : d2 ++ [] ≠ [] := by simpa using n2
  have c3 : d3 ++ List.takeWhile Char.isDigit after ≠ [] := by simp [n3]
  rw [if_pos ⟨c1, c2, c3⟩]
  simp

theorem findFrom_complete (before t after : List Char) (ht : IsTriple t) :
    (findFrom (before ++ t ++ after)).isSome = true := by
  obtain ⟨d1, d2, d3, rfl, n1, n2, n3, h1, h2, h3⟩ := ht
  induction before with
  | nil =>
    cases hd : d1 with
    | nil => exact absurd hd n1
    | cons c cs =>
      have hm := matchHere_complete d1 d2 d3 after n1 n2 n3 h1 h2 h3
      rw [hd] at hm
      have hm2 : matchHere (c :: (cs ++ '.' :: d2 ++ '.' :: d3 ++ after)) =
          some (c :: cs ++ '.' :: d2 ++ '.' :: (d3 ++ after.takeWhile Char.isDigit)) := by
        simpa using hm
      simp only [List.append_assoc, List.cons_append] at hm2
      have e : [] ++ (c :: cs ++ '.' :: d2 ++ '.' :: d3) ++ after =
          c :: (cs ++ '.' :: (d2 ++ '.' :: (d3 ++ after))) := by
        simp
      rw [e]
      simp only [findFrom, hm2]
      rfl
  | cons c cs ih =>
    have e : c :: cs ++ (d1 ++ '.' :: d2 ++ '.' :: d3) ++ after =
        c :: (cs ++ (d1 ++ '.' :: d2 ++ '.' :: d3) ++ after) := by
      simp
    rw [e]
    simp only [findFrom]
    cases matchHere (c :: (cs ++ (d1 ++ '.' :: d2 ++ '.' :: d3) ++ after)) with
    | some m => rfl
    | none => exact ih

theorem FindString_eq_empty_iff (s : String) : FindString s = "" ↔ ¬ HasTriple s := by
  constructor
  · intro h ht
    obtain ⟨before, t, after, hs, htr⟩ := ht
    have hsome := findFrom_complete before t after htr
    rw [← hs] at hsome
    unfold FindString at h
    cases hf : findFrom s.data with
    | none => rw [hf] at hsome; cases hsome
    | some m =>
      rw [hf] at h
      obtain ⟨_, _, _, ⟨d1, d2, d3, hm, n1, _⟩⟩ := findFrom_sound _ _ hf
      have hdata : m = [] := by
        have := congrArg String.data h
        simpa using this
      rw [hdata] at hm
      cases d1 with
      | nil => exact n1 rfl
      | cons c cs => simp at hm
  · exact FindString_empty_of_no_triple s

theorem setEntries_fresh {α : Type} (k : String) (v : α) :
    ∀ l : List (String × α), k ∉ l.map Prod.fst → setEntries k v l = l ++ [(k, v)] := by
  intro l
  induction l with
  | nil => intro _; rfl
  | cons p rest ih =>
    obtain ⟨k', v'⟩ := p
    intro h
    simp only [List.map_cons, List.mem_cons, not_or] at h
    have hk : ¬ k' = k := fun e => h.1 e.symm
    simp only [setEntries, hk, if_false, List.cons_append, ih h.2]

/-- The loop of lines 119-146, when it runs to its end over entries with fresh
and distinct names, adds one entry per name, in visiting order. -/
theorem assembleLoop_keys {V : Type} (E : Env V) (st : GoState) (source shortVersion : String)
    (entries : List (String × solcContract)) :
    ∀ acc m : GoMap (Contract V),
      (acc.keys ++ entries.map Prod.fst).Nodup →
      (assembleLoop E st source shortVersion entries acc).1 = some m →
      m.keys = acc.keys ++ entries.map Prod.fst := by
  induction entries with
  | nil =>
    intro acc m _ hm
    simp only [assembleLoop, Option.some.injEq] at hm
    subst hm
    simp
  | cons p rest ih =>
    intro acc m hnd hm
    obtain ⟨name, info⟩ := p
    simp only [assembleLoop] at hm
    cases ha : E.unmarshalValue info.Abi with
    | error e => simp [ha] at hm
    | ok abi =>
      cases hu : E.unmarshalValue info.Userdoc with
      | error e => simp [ha, hu] at hm
      | ok userdoc =>
        cases hd : E.unmarshalValue info.Devdoc with
        | error e => simp [ha, hu, hd] at hm
        | ok devdoc =>
          simp only [ha, hu, hd] at hm
          have hfresh : name ∉ acc.entries.map Prod.fst := by
            intro hin
            have := List.nodup_append.mp hnd
            exact this.2.2 hin (by simp)
          have hkeys : ∀ c : Contract V, (acc.set name c).keys = acc.keys ++ [name] := by
            intro c
            simp only [GoMap.keys, GoMap.set, setEntries_fresh name c acc.entries hfresh,
              List.map_append, List.map_cons, List.map_nil]
          have hnd2 : ∀ c : Contract V,
              ((acc.set name c).keys ++ rest.map Prod.fst).Nodup := by
            intro c
            rw [hkeys c]
            simpa using hnd
          rw [ih _ m (hnd2 _) hm, hkeys]
          simp

theorem assembleLoop_invalid {V : Type} (E : Env V) (st : GoState) (source shortVersion : String)
    (entries : List (String × solcContract)) :
    ∀ acc : GoMap (Contract V), HasInvalidField E entries →
      (assembleLoop E st source shortVersion entries acc).1 = none ∧
      ∃ e, (assembleLoop E st source shortVersion entries acc).2 = some e ∧
        NamesInvalidField E entries e := by
  induction entries with
  | nil =>
    intro acc h
    obtain ⟨_, _, _, hmem, _⟩ := h
    simp at hmem
  | cons p rest ih =>
    intro acc h
    obtain ⟨name, info⟩ := p
    simp only [assembleLoop]
    cases ha : E.unmarshalValue info.Abi with
    | error d =>
      exact ⟨rfl, _, rfl, name, info, d, List.mem_cons_self _ _, Or.inl ⟨ha, rfl⟩⟩
    | ok abi =>
      cases hu : E.unmarshalValue info.Userdoc with
      | error d =>
        exact ⟨rfl, _, rfl, name, info, d, List.mem_cons_self _ _, Or.inr (Or.inl ⟨hu, rfl⟩)⟩
      | ok userdoc =>
        cases hd : E.unmarshalValue info.Devdoc with
        | error d =>
          exact ⟨rfl, _, rfl, name, info, d, List.mem_cons_self _ _,
            Or.inr (Or.inr ⟨hd, rfl⟩)⟩
        | ok devdoc =>
          have hrest : HasInvalidField E rest := by
            obtain ⟨n', i', d', hmem, hbad⟩ := h
            rcases List.mem_cons.mp hmem with h1 | h1
            · cases h1
              rcases hbad with hb | hb | hb
              · rw [ha] at hb; cases hb
              · rw [hu] at hb; cases hb
              · rw [hd] at hb; cases hb
            · exact ⟨n', i', d', h1, hbad⟩
          obtain ⟨h1, e, h2, n', i', d', hmem, hbad⟩ := ih _ hrest
          exact ⟨h1, e, h2, n', i', d', List.mem_cons_of_mem _ hmem, hbad⟩

theorem compileWithBuffers_keys {V : Type} (E : Env V) (st : GoState) (stderr stdout : Buffer)
    (sourcefiles : List String) (m : GoMap (Contract V))
    (h : (compileWithBuffers E st stderr stdout sourcefiles).contracts = some m) :
    ∃ out, E.unmarshalOutput stdout.Bytes = Except.ok out ∧ m.keys = out.Contracts.keys := by
  obtain ⟨-, source, reads, out, -, -, hu, hloop⟩ :=
    compileWithBuffers_success E st stderr stdout sourcefiles m h
  refine ⟨out, hu, ?_⟩
  have hk := assembleLoop_keys E _ _ _ out.Contracts.entries GoMap.empty m
    (by simpa [GoMap.keys, GoMap.empty] using out.Contracts.nodup) hloop
  simpa [GoMap.keys, GoMap.empty] using hk

theorem compileWithBuffers_invalid_field {V : Type} (E : Env V) (st : GoState)
    (stderr stdout : Buffer) (sourcefiles : List String) (out : solcOutput)
    (hne : sourcefiles ≠ []) (hread : (slurpFiles E sourcefiles).2.1 = none)
    (hstatus : ∀ argc argv, (E.solc argc argv).1 = 0)
    (hout : E.unmarshalOutput stdout.Bytes = Except.ok out)
    (hbad : HasInvalidField E out.Contracts.entries) :
    (compileWithBuffers E st stderr stdout sourcefiles).contracts = none ∧
    ∃ e, (compileWithBuffers E st stderr stdout sourcefiles).err = some e ∧
      NamesInvalidField E out.Contracts.entries e := by
  rcases hs : slurpFiles E sourcefiles with ⟨source, err, reads⟩
  rw [hs] at hread
  simp only at hread
  subst hread
  obtain ⟨-, -, -, hok⟩ := compileWithBuffers_run E st stderr stdout sourcefiles source reads
    hne hs
  have hcall : (callCSolc E ((buildArgs E.growCap st sourcefiles).1.read
      (buildArgs E.growCap st sourcefiles).2)).1 = true := by
    rw [callCSolc_event]
    simp [hstatus]
  obtain ⟨hc, he⟩ := (hok hcall).2 out hout
  rw [hc, he]
  exact assembleLoop_invalid E _ _ _ _ _ hbad

/-! ## The claims -/

set_option maxRecDepth 20000

/-- C1. Called with no source file path, CompileSolidity returns a nil mapping
and the error of line 93, whatever the file system and the compiler are, and it
has interacted with neither: its trace holds no file read and no compiler call,
and the package state is untouched. -/
theorem CompileSolidity_no_sources {V : Type} (E : Env V) (st : GoState) (solc : String) :
    (CompileSolidity E st solc []).contracts = none ∧
    (CompileSolidity E st solc []).err = some "solc: no source " ∧
    (CompileSolidity E st solc []).trace = [] ∧
    (CompileSolidity E st solc []).state = st := by
  simp [CompileSolidity, compileWithBuffers_nil]

/-- C2. For a non-empty list of source files, CompileSolidity never returns a
non-nil error together with a mapping: when the error is non-nil the mapping is
nil.  This holds for the function itself and, more generally, for its body run
on any content of the two buffers. -/
theorem CompileSolidity_all_or_nothing {V : Type} (E : Env V) (st : GoState) (solc : String)
    (sourcefiles : List String) (_hne : sourcefiles ≠ []) :
    ((CompileSolidity E st solc sourcefiles).err ≠ none →
      (CompileSolidity E st solc sourcefiles).contracts = none) ∧
    (∀ stderr stdout : Buffer,
      (compileWithBuffers E st stderr stdout sourcefiles).err ≠ none →
        (compileWithBuffers E st stderr stdout sourcefiles).contracts = none) :=
  ⟨compileWithBuffers_all_or_nothing E st _ _ sourcefiles,
   fun stderr stdout => compileWithBuffers_all_or_nothing E st stderr stdout sourcefiles⟩

/-- C2, at a concrete input: two readable files and a compiler reporting
status 0. -/
theorem CompileSolidity_all_or_nothing_witness :
    ["a.sol", "b.sol"] ≠ [] ∧
    (((CompileSolidity demoEnv initState "solc" ["a.sol", "b.sol"]).err ≠ none →
      (CompileSolidity demoEnv initState "solc" ["a.sol", "b.sol"]).contracts = none) ∧
    (∀ stderr stdout : Buffer,
      (compileWithBuffers demoEnv initState stderr stdout ["a.sol", "b.sol"]).err ≠ none →
        (compileWithBuffers demoEnv initState stderr stdout ["a.sol", "b.sol"]).contracts = none)) :=
  ⟨by decide, CompileSolidity_all_or_nothing demoEnv initState "solc" ["a.sol", "b.sol"] (by decide)⟩

/-- C3. For a non-empty list of readable source files, slurpFiles returns the
files' contents written one after the other in input order, with no error, and
every Contract in a mapping returned by CompileSolidity carries that text as
Info.Source.  The last part is proved for the body of CompileSolidity run on
any content of its buffers, of which CompileSolidity is the instance with
empty buffers. -/
theorem slurpFiles_concat_source {V : Type} (E : Env V) (content : String → String)
    (sourcefiles : List String) (_hne : sourcefiles ≠ [])
    (hread : ∀ f ∈ sourcefiles, E.readFile f = Except.ok (content f)) :
    (slurpFiles E sourcefiles).1 = concatStrings (sourcefiles.map content) ∧
    (slurpFiles E sourcefiles).2.1 = none ∧
    (∀ (st : GoState) (solc : String) (m : GoMap (Contract V)) (name : String) (c : Contract V),
      (CompileSolidity E st solc sourcefiles).contracts = some m → m.get? name = some c →
      c.Info.Source = concatStrings (sourcefiles.map content)) ∧
    (∀ (st : GoState) (stderr stdout : Buffer) (m : GoMap (Contract V)) (name : String)
      (c : Contract V),
      (compileWithBuffers E st stderr stdout sourcefiles).contracts = some m →
      m.get? name = some c →
      c.Info.Source = concatStrings (sourcefiles.map content)) := by
  have hs : slurpFiles E sourcefiles =
      (concatStrings (sourcefiles.map content), none, sourcefiles.map Event.readFile) := by
    have h := slurpLoop_ok E content sourcefiles Buffer.zero [] hread
    simpa [slurpFiles, Buffer.zero] using h
  have hgen : ∀ (st : GoState) (stderr stdout : Buffer) (m : GoMap (Contract V)) (name : String)
      (c : Contract V),
      (compileWithBuffers E st stderr stdout sourcefiles).contracts = some m →
      m.get? name = some c →
      c.Info.Source = concatStrings (sourcefiles.map content) := by
    intro st stderr stdout m name c hm hget
    obtain ⟨-, source, reads, out, hs2, -, -, hloop⟩ :=
      compileWithBuffers_success E st stderr stdout sourcefiles m hm
    rw [hs] at hs2
    have hsrc : source = concatStrings (sourcefiles.map content) := by
      cases hs2
      rfl
    subst hsrc
    exact assembleLoop_inv (fun _ c => c.Info.Source = concatStrings (sourcefiles.map content))
      E _ _ _ _ GoMap.empty m (fun _ _ _ _ _ _ => rfl)
      (fun n c h => by simp [GoMap.get?_empty] at h) hloop name c hget
  refine ⟨by rw [hs], by rw [hs], ?_, hgen⟩
  intro st solc m name c hm hget
  exact hgen st Buffer.zero Buffer.zero m name c hm hget

/-- C3, at a concrete input: the files a.sol and b.sol of the demo file
system, and the body run on a buffer holding a document, where a mapping is
returned. -/
theorem slurpFiles_concat_source_witness :
    (slurpFiles demoEnv ["a.sol", "b.sol"]).1 = "contract A {}contract B {}" ∧
    (slurpFiles demoEnv ["a.sol", "b.sol"]).2.1 = none ∧
    (compileWithBuffers demoEnv initState Buffer.zero { content := demoDocument }
      ["a.sol", "b.sol"]).contracts.isSome = true ∧
    (∀ (m : GoMap (Contract String)) (name : String) (c : Contract String),
      (compileWithBuffers demoEnv initState Buffer.zero { content := demoDocument }
        ["a.sol", "b.sol"]).contracts = some m →
      m.get? name = some c → c.Info.Source = "contract A {}contract B {}") := by
  have h := slurpFiles_concat_source demoEnv
    (fun f => if f = "a.sol" then "contract A {}" else "contract B {}") ["a.sol", "b.sol"]
    (by decide) (by
      intro f hf
      simp only [List.mem_cons, List.mem_singleton, List.not_mem_nil, or_false] at hf
      rcases hf with hf | hf <;> subst hf <;> rfl)
  exact ⟨h.1, h.2.1, rfl, fun m name c hm hget =>
    h.2.2.2 initState Buffer.zero { content := demoDocument } m name c hm hget⟩

/-- C4. After any sequence of earlier calls into the package, the call of the
compiler made by CompileSolidity receives exactly the five fixed arguments
followed by the source file paths in input order, and an argument count of 5
plus the number of paths; the call is made whenever the list is non-empty and
all files are read.  The slice solcParams is the same before and after, header
and elements, so the fixed arguments are the same on every call. -/
theorem CompileSolidity_arguments {V : Type} (history : List (Call V)) (E : Env V)
    (solc : String) (sourcefiles : List String) :
    (∀ argc argv,
      Event.solc argc argv ∈ (CompileSolidity E (stateAfter history) solc sourcefiles).trace →
      argc = 5 + sourcefiles.length ∧
      argv = (["--combined-json", "bin,abi,userdoc,devdoc", "--add-std", "--optimize", "--"] ++
        sourcefiles).map some) ∧
    (sourcefiles ≠ [] → (slurpFiles E sourcefiles).2.1 = none →
      Event.solc (5 + sourcefiles.length)
        ((["--combined-json", "bin,abi,userdoc,devdoc", "--add-std", "--optimize", "--"] ++
          sourcefiles).map some) ∈
        (CompileSolidity E (stateAfter history) solc sourcefiles).trace) ∧
    (stateAfter history).read (stateAfter history).solcParams =
      ["--combined-json", "bin,abi,userdoc,devdoc", "--add-std", "--optimize"] ∧
    (CompileSolidity E (stateAfter history) solc sourcefiles).state.solcParams =
      (stateAfter history).solcParams ∧
    (CompileSolidity E (stateAfter history) solc sourcefiles).state.read
        (CompileSolidity E (stateAfter history) solc sourcefiles).state.solcParams =
      ["--combined-json", "bin,abi,userdoc,devdoc", "--add-std", "--optimize"] := by
  have hst : ParamsIntact (stateAfter history) := paramsIntact_stateAfter history
  have hargs := buildArgs_spec E.growCap (stateAfter history) sourcefiles hst
  have hcall : callCSolc E ((buildArgs E.growCap (stateAfter history) sourcefiles).1.read
      (buildArgs E.growCap (stateAfter history) sourcefiles).2) =
      (decide ((E.solc (5 + sourcefiles.length)
          ((solcFlags ++ ["--"] ++ sourcefiles).map some)).1 = 0),
        Event.solc (5 + sourcefiles.length) ((solcFlags ++ ["--"] ++ sourcefiles).map some)) := by
    rw [callCSolc_event, hargs.2]
    have hlen : (solcFlags ++ ["--"] ++ sourcefiles).length = 5 + sourcefiles.length := by
      simp [solcFlags]; omega
    rw [hlen]
  have hpost : ParamsIntact (CompileSolidity E (stateAfter history) solc sourcefiles).state := by
    rcases compile_state E (stateAfter history) Buffer.zero Buffer.zero sourcefiles with h1 | h1
    · simp only [CompileSolidity, h1]; exact hst
    · simp only [CompileSolidity, h1]; exact hargs.1
  refine ⟨?_, ?_, paramsIntact_read _ hst, ?_, paramsIntact_read _ hpost⟩
  · intro argc argv hmem
    by_cases hne : sourcefiles = []
    · subst hne
      simp [CompileSolidity, compileWithBuffers_nil] at hmem
    · rcases hs : slurpFiles E sourcefiles with ⟨source, err, reads⟩
      have hreads : Event.solc argc argv ∉ reads := by
        intro hin
        have hin2 : Event.solc argc argv ∈ (slurpFiles E sourcefiles).2.2 := by
          rw [hs]; exact hin
        obtain ⟨path, hp⟩ := slurpFiles_trace E sourcefiles _ hin2
        cases hp
      cases err with
      | some e =>
        have hl : sourcefiles.length ≠ 0 := by simpa using hne
        simp only [CompileSolidity, compileWithBuffers, hl, if_false, hs] at hmem
        exact absurd hmem hreads
      | none =>
        have htr := (compileWithBuffers_run E (stateAfter history) Buffer.zero Buffer.zero
          sourcefiles source reads hne hs).1
        simp only [CompileSolidity, htr, hcall, List.mem_append, List.mem_singleton, hreads,
          false_or] at hmem
        injection hmem with h1 h2
        exact ⟨h1, h2⟩
  · intro hne hok
    rcases hs : slurpFiles E sourcefiles with ⟨source, err, reads⟩
    rw [hs] at hok
    simp only at hok
    subst hok
    have htr := (compileWithBuffers_run E (stateAfter history) Buffer.zero Buffer.zero
      sourcefiles source reads hne hs).1
    simp only [CompileSolidity, htr, hcall, List.mem_append, List.mem_singleton]
    exact Or.inr rfl
  · rw [hpost.1, hst.1]

/-- C6. Whenever the body of CompileSolidity returns without error, the
buffer it parsed decoded to a combined output, and for every contract name n in
the result the Code field is the two characters 0x followed by the Bin string
that output holds for n, unchanged.  CompileSolidity is the instance with empty
buffers. -/
theorem CompileSolidity_code_is_0x_bin {V : Type} (E : Env V) (st : GoState)
    (stderr stdout : Buffer) (sourcefiles : List String) (m : GoMap (Contract V))
    (_herr : (compileWithBuffers E st stderr stdout sourcefiles).err = none)
    (hm : (compileWithBuffers E st stderr stdout sourcefiles).contracts = some m) :
    ∃ out, E.unmarshalOutput stdout.Bytes = Except.ok out ∧
      ∀ (n : String) (c : Contract V), m.get? n = some c →
        ∃ info, out.Contracts.get? n = some info ∧ c.Code = "0x" ++ info.Bin := by
  obtain ⟨-, source, reads, out, -, -, hu, hloop⟩ :=
    compileWithBuffers_success E st stderr stdout sourcefiles m hm
  refine ⟨out, hu, ?_⟩
  exact assembleLoop_inv
    (fun n c => ∃ info, out.Contracts.get? n = some info ∧ c.Code = "0x" ++ info.Bin)
    E _ _ _ _ GoMap.empty m
    (fun name info _ _ _ hmem => ⟨info, GoMap.get?_of_mem _ _ _ hmem, rfl⟩)
    (fun n c h => by simp [GoMap.get?_empty] at h) hloop

/-- C6, at a concrete input: the body of CompileSolidity run on a captured
document with the contracts A and B returns the two records, and their code is
0x6060 and 0x6061. -/
theorem CompileSolidity_code_is_0x_bin_witness :
    (compileWithBuffers demoEnv initState Buffer.zero { content := demoDocument }
      ["a.sol", "b.sol"]).err = none ∧
    ((compileWithBuffers demoEnv initState Buffer.zero { content := demoDocument }
      ["a.sol", "b.sol"]).contracts.map fun m => m.entries.map fun e => (e.1, e.2.Code)) =
      some [("A", "0x6060"), ("B", "0x6061")] ∧
    ∃ out, demoEnv.unmarshalOutput demoDocument = Except.ok out ∧
      ∀ (n : String) (c : Contract String),
        (((GoMap.empty.set "A"
            { Code := "0x6060",
              Info :=
                { Source := "contract A {}contract B {}", Language := "Solidity",
                  LanguageVersion := "0.4.24", CompilerVersion := "0.4.24",
                  CompilerOptions := "--combined-json bin,abi,userdoc,devdoc --add-std --optimize",
                  AbiDefinition := "[]", UserDoc := "\x7b\x7d", DeveloperDoc := "\x7b\x7d" } }).set "B"
            { Code := "0x6061",
              Info :=
                { Source := "contract A {}contract B {}", Language := "Solidity",
                  LanguageVersion := "0.4.24", CompilerVersion := "0.4.24",
                  CompilerOptions := "--combined-json bin,abi,userdoc,devdoc --add-std --optimize",
                  AbiDefinition := "[]", UserDoc := "\x7b\x7d", DeveloperDoc := "\x7b\x7d" } }) :
          GoMap (Contract String)).get? n = some c →
        ∃ info, out.Contracts.get? n = some info ∧ c.Code = "0x" ++ info.Bin :=
  ⟨rfl, rfl,
    CompileSolidity_code_is_0x_bin demoEnv initState Buffer.zero { content := demoDocument }
      ["a.sol", "b.sol"] _ rfl rfl⟩

/-- C5, on the code.  The compiler reports status 0 and prints a document that
decodes to the contracts A and B.  CompileSolidity returns a nil mapping and
the decoder's error on empty input; its body, run on a buffer that holds the
document, returns exactly the entries A and B; in general the keys of a
mapping the body returns are the contract names of the decoded buffer. -/
theorem CompileSolidity_drops_reported_contracts :
    (CompileSolidity demoEnv initState "solc" ["a.sol", "b.sol"]).trace =
      [Event.readFile "a.sol", Event.readFile "b.sol",
        Event.solc 7
          [some "--combined-json", some "bin,abi,userdoc,devdoc", some "--add-std",
            some "--optimize", some "--", some "a.sol", some "b.sol"]] ∧
    (demoEnv.solc 7
      [some "--combined-json", some "bin,abi,userdoc,devdoc", some "--add-std",
        some "--optimize", some "--", some "a.sol", some "b.sol"]).1 = 0 ∧
    ((demoEnv.unmarshalOutput (demoEnv.solc 7
      [some "--combined-json", some "bin,abi,userdoc,devdoc", some "--add-std",
        some "--optimize", some "--", some "a.sol", some "b.sol"]).2).toOption.map
          fun out => out.Contracts.keys) = some ["A", "B"] ∧
    ((CompileSolidity demoEnv initState "solc" ["a.sol", "b.sol"]).contracts.map
      fun m => m.keys) = none ∧
    (CompileSolidity demoEnv initState "solc" ["a.sol", "b.sol"]).err =
      some "unexpected end of JSON input" ∧
    ((compileWithBuffers demoEnv initState Buffer.zero
      { content := (demoEnv.solc 7
          [some "--combined-json", some "bin,abi,userdoc,devdoc", some "--add-std",
            some "--optimize", some "--", some "a.sol", some "b.sol"]).2 }
      ["a.sol", "b.sol"]).contracts.map fun m => m.keys) = some ["A", "B"] ∧
    (∀ (E : Env String) (st : GoState) (stderr stdout : Buffer) (sourcefiles : List String)
      (m : GoMap (Contract String)),
      (compileWithBuffers E st stderr stdout sourcefiles).contracts = some m →
      ∃ out, E.unmarshalOutput stdout.Bytes = Except.ok out ∧ m.keys = out.Contracts.keys) := by
  refine ⟨rfl, rfl, rfl, rfl, rfl, rfl, ?_⟩
  intro E st stderr stdout sourcefiles m h
  exact compileWithBuffers_keys E st stderr stdout sourcefiles m h

/-- C7, on the code.  The compiler reports status 0 and prints a document that
decodes, in which contract A has an ABI string that is not JSON.
CompileSolidity returns a nil mapping and the decoder's error on empty input,
which names no field; its body, run on a buffer that holds the document,
returns the error that names the abi definition; in general, when the files
are read, the status is 0 and the buffer decodes to a document with a field
that is not JSON, the body returns a nil mapping and an error naming such a
field. -/
theorem CompileSolidity_error_names_no_field :
    ((badAbiEnv.unmarshalOutput (badAbiEnv.solc 6
      [some "--combined-json", some "bin,abi,userdoc,devdoc", some "--add-std",
        some "--optimize", some "--", some "a.sol"]).2).toOption.map
          fun out => out.Contracts.entries.map fun e => (e.1, e.2.Abi)) =
      some [("A", "not json")] ∧
    badAbiEnv.unmarshalValue "not json" = Except.error "invalid character" ∧
    (CompileSolidity badAbiEnv initState "solc" ["a.sol"]).trace =
      [Event.readFile "a.sol",
        Event.solc 6
          [some "--combined-json", some "bin,abi,userdoc,devdoc", some "--add-std",
            some "--optimize", some "--", some "a.sol"]] ∧
    ((CompileSolidity badAbiEnv initState "solc" ["a.sol"]).contracts.map fun m => m.keys) =
      none ∧
    (CompileSolidity badAbiEnv initState "solc" ["a.sol"]).err =
      some "unexpected end of JSON input" ∧
    (compileWithBuffers badAbiEnv initState Buffer.zero
      { content := (badAbiEnv.solc 6
          [some "--combined-json", some "bin,abi,userdoc,devdoc", some "--add-std",
            some "--optimize", some "--", some "a.sol"]).2 }
      ["a.sol"]).err = some "solc: error reading abi definition (invalid character)" ∧
    (∀ (E : Env String) (st : GoState) (stderr stdout : Buffer) (sourcefiles : List String)
      (out : solcOutput),
      sourcefiles ≠ [] → (slurpFiles E sourcefiles).2.1 = none →
      (∀ argc argv, (E.solc argc argv).1 = 0) →
      E.unmarshalOutput stdout.Bytes = Except.ok out →
      HasInvalidField E out.Contracts.entries →
      (compileWithBuffers E st stderr stdout sourcefiles).contracts = none ∧
      ∃ e, (compileWithBuffers E st stderr stdout sourcefiles).err = some e ∧
        NamesInvalidField E out.Contracts.entries e) := by
  refine ⟨rfl, rfl, rfl, rfl, rfl, rfl, ?_⟩
  intro E st stderr stdout sourcefiles out hne hread hstatus hout hbad
  exact compileWithBuffers_invalid_field E st stderr stdout sourcefiles out hne hread hstatus
    hout hbad

/-- C8, on the code.  The compiler answers the banner
Version: 0.4.24+commit.e67f0147, in which the leftmost version triple is
0.4.24.  SolidityVersion returns the empty string both as FullVersion and as
Version, as it does for every compiler: the text never reaches its buffer. -/
theorem SolidityVersion_ignores_banner :
    (SolidityVersion versionEnv initState).trace = [Event.solc 1 [some "--version"]] ∧
    (versionEnv.solc 1 [some "--version"]).2 = "Version: 0.4.24+commit.e67f0147" ∧
    FindString (versionEnv.solc 1 [some "--version"]).2 = "0.4.24" ∧
    (SolidityVersion versionEnv initState).solidity =
      some { Version := "", FullVersion := "" } ∧
    (∀ (E : Env String) (st : GoState),
      (SolidityVersion E st).solidity = some { Version := "", FullVersion := "" }) := by
  refine ⟨rfl, rfl, by decide, rfl, fun E st => rfl⟩

/-- C9. SolidityVersion never returns an error: for every compiler (status and
text) and every package state the error is nil and the record is non-nil, and
when the text the compiler wrote contains no version triple the returned
Version is the empty string.  The same holds of the body run on any content of
its buffer, where Version is empty exactly when the content has no triple. -/
theorem SolidityVersion_never_fails {V : Type} (E : Env V) (st : GoState) :
    (SolidityVersion E st).err = none ∧
    (∃ s, (SolidityVersion E st).solidity = some s ∧
      ∀ argc argv, Event.solc argc argv ∈ (SolidityVersion E st).trace →
        ¬ HasTriple (E.solc argc argv).2 → s.Version = "") ∧
    (∀ stdout : Buffer,
      (versionWithBuffer E st stdout).err = none ∧
      ∃ s, (versionWithBuffer E st stdout).solidity = some s ∧
        s.FullVersion = stdout.String ∧
        (s.Version = "" ↔ ¬ HasTriple stdout.String)) := by
  refine ⟨rfl, ⟨_, rfl, fun _ _ _ _ => rfl⟩, fun stdout => ⟨rfl, _, rfl, rfl, ?_⟩⟩
  exact FindString_eq_empty_iff _

/-- C10. CompileSolidity never succeeds.  For every input list, file system,
compiler and package state it returns a nil mapping and a non-nil error, and
the error is that of one of the four returns that come before the loop: no
source (line 93), the read error of slurpFiles (line 97), the compiler failure
(line 108), or the decoder's error on the empty buffer (line 113).  When the
compiler was called and reported status 0 it is the last of these.  The loop of
lines 119-146 is never entered: the result does not depend on what decoding a
per-contract field would give. -/
theorem CompileSolidity_never_succeeds {V : Type} (E : Env V) (st : GoState) (solc : String)
    (sourcefiles : List String) :
    (CompileSolidity E st solc sourcefiles).contracts = none ∧
    (CompileSolidity E st solc sourcefiles).err ≠ none ∧
    ((CompileSolidity E st solc sourcefiles).err = some "solc: no source " ∨
      (∃ e, (slurpFiles E sourcefiles).2.1 = some e ∧
        (CompileSolidity E st solc sourcefiles).err = some e) ∨
      (CompileSolidity E st solc sourcefiles).err = some "solc: <nil>\n" ∨
      (CompileSolidity E st solc sourcefiles).err = some "unexpected end of JSON input") ∧
    (∀ argc argv, Event.solc argc argv ∈ (CompileSolidity E st solc sourcefiles).trace →
      (E.solc argc argv).1 = 0 →
      (CompileSolidity E st solc sourcefiles).err = some "unexpected end of JSON input") ∧
    (∀ f : String → Except String V,
      CompileSolidity { E with unmarshalValue := f } st solc sourcefiles =
        CompileSolidity E st solc sourcefiles) := by
  have hc := compileWithBuffers_zero_cases E st sourcefiles
  refine ⟨hc.1, ?_, hc.2, ?_, ?_⟩
  · rcases hc.2 with h | ⟨e, _, h⟩ | h | h <;> simp [CompileSolidity, h]
  · intro argc argv hmem hzero
    by_cases hne : sourcefiles = []
    · subst hne
      simp [CompileSolidity, compileWithBuffers_nil] at hmem
    · rcases hs : slurpFiles E sourcefiles with ⟨source, err, reads⟩
      cases err with
      | some e =>
        have hl : sourcefiles.length ≠ 0 := by simpa using hne
        simp only [CompileSolidity, compileWithBuffers, hl, if_false, hs] at hmem
        have hin : Event.solc argc argv ∈ (slurpFiles E sourcefiles).2.2 := by rw [hs]; exact hmem
        obtain ⟨path, hp⟩ := slurpFiles_trace E sourcefiles _ hin
        cases hp
      | none =>
        have hrun := compileWithBuffers_run E st Buffer.zero Buffer.zero sourcefiles source reads
          hne hs
        obtain ⟨htr, -, -, hok⟩ := hrun
        have hreads : Event.solc argc argv ∉ reads := by
          intro hin
          have hin2 : Event.solc argc argv ∈ (slurpFiles E sourcefiles).2.2 := by rw [hs]; exact hin
          obtain ⟨path, hp⟩ := slurpFiles_trace E sourcefiles _ hin2
          cases hp
        simp only [CompileSolidity, htr, List.mem_append, List.mem_singleton, hreads,
          false_or] at hmem
        have hcall : (callCSolc E ((buildArgs E.growCap st sourcefiles).1.read
            (buildArgs E.growCap st sourcefiles).2)).1 = true := by
          simp only [callCSolc] at hmem ⊢
          injection hmem with h1 h2
          subst h1 h2
          simpa using hzero
        exact ((hok hcall).1 _ E.unmarshal_empty).2
  · intro f
    have hsl : slurpFiles { E with unmarshalValue := f } sourcefiles = slurpFiles E sourcefiles :=
      slurpLoop_congr { E with unmarshalValue := f } E rfl sourcefiles _ _
    have hz : E.unmarshalOutput Buffer.zero.Bytes =
        Except.error "unexpected end of JSON input" := E.unmarshal_empty
    unfold CompileSolidity compileWithBuffers
    simp only [hsl, callCSolc, hz]

end Solc
